import Mathlib

/-!
Verification of the Daily Spin news-to-song server.

This file gives a shallow embedding, in Lean, of the pure decision logic of
the server: prompt capping, token-overlap similarity scoring, the audio relay
validation, audio URL normalization, the per-task status aggregation, the
lyric model fallback loop, feed parsing, article candidate extraction, podcast
plan validation and feed failure isolation.  Network effects are modelled by
explicit outcome values or oracle functions handed to the embedded code:
platform primitives that are not part of the repository (the WHATWG URL
parser, the regular-expression engine behind extractTagValue, the paragraph
extractor and the Unicode normalizer behind normalizeHeadlineKey) are taken
as parameters, while every branch and arithmetic step written in the
repository itself is translated directly from the source.
-/

/-! ## JavaScript string primitives -/

/-- JavaScript strings are modelled as lists of characters. -/
abbrev JSString := List Char

/-- Decidable equality for the Except results used by the embedded
handlers, so that concrete runs can be checked by evaluation. -/
instance {ε α : Type} [DecidableEq ε] [DecidableEq α] : DecidableEq (Except ε α) := fun x y =>
  match x, y with
  | Except.error a, Except.error b =>
    if h : a = b then isTrue (by rw [h])
    else isFalse (fun hx => h (by cases hx; rfl))
  | Except.ok a, Except.ok b =>
    if h : a = b then isTrue (by rw [h])
    else isFalse (fun hx => h (by cases hx; rfl))
  | Except.error _, Except.ok _ => isFalse (fun hx => Except.noConfusion hx)
  | Except.ok _, Except.error _ => isFalse (fun hx => Except.noConfusion hx)

/-- Literal helper turning a Lean string into the embedded representation. -/
def jsStr (s : String) : JSString := s.toList

/-- The character class matched by the regular expression class backslash-s
in JavaScript (the whitespace characters relevant to this code base). -/
def jsIsSpace (c : Char) : Bool :=
  c = ' ' || c = '\t' || c = '\n' || c = '\r' ||
  c = '\u000b' || c = '\u000c' || c = ' ' || c = ' ' ||
  c = ' ' || c = '﻿'

/-- Strip leading whitespace, as the front half of String.prototype.trim. -/
def jsTrimStart (s : JSString) : JSString := s.dropWhile jsIsSpace

/-- Strip trailing whitespace: String.prototype.trimEnd, and also the effect
of replacing the anchored pattern backslash-s-plus-dollar by nothing. -/
def jsTrimEnd (s : JSString) : JSString := (s.reverse.dropWhile jsIsSpace).reverse

/-- String.prototype.trim. -/
def jsTrim (s : JSString) : JSString := jsTrimStart (jsTrimEnd s)

/-- String.prototype.toLowerCase restricted to the character-wise mapping
used by this code base (hostnames and dedup keys are ASCII). -/
def jsToLower (s : JSString) : JSString := s.map Char.toLower

/-- String.prototype.slice with start index 0 and a possibly negative end
index, as in text.slice(0, e): a negative end counts from the end of the
string, clamped at 0. -/
def jsSliceZero (s : JSString) (e : Int) : JSString :=
  if e < 0 then s.take (s.length - e.natAbs) else s.take e.toNat

/-! ## enforcePromptLimit (server.js) -/

/-- Character cap for prompts sent to the synthesis backend. -/
def SUNO_PROMPT_MAX_CHARS : Nat := 3000

/-- The single ellipsis character appended when text is truncated. -/
def ellipsisChar : Char := '…'

/-- Embedding of enforcePromptLimit(text, max): normalise by removing the
trailing whitespace run and trimming, return unchanged when within the cap,
otherwise slice to max minus one characters, trim the end again and append
one ellipsis character. -/
def enforcePromptLimit (text : JSString) (max : Nat := SUNO_PROMPT_MAX_CHARS) : JSString :=
  let normalised := jsTrim (jsTrimEnd text)
  if normalised.length ≤ max then normalised
  else jsTrimEnd (jsSliceZero normalised ((max : Int) - 1)) ++ [ellipsisChar]

/-! ## scoreSimilarity (server.js) -/

/-- String.prototype.split on the regular expression backslash-s-plus: the
string is cut at every maximal whitespace run, with an empty piece produced
at a leading or trailing run, and the empty string yielding one empty
piece. -/
def jsSplitWS : JSString → List JSString
  | [] => [[]]
  | c :: rest =>
    let r := jsSplitWS rest
    if jsIsSpace c then
      match rest with
      | [] => [] :: r
      | c2 :: _ => if jsIsSpace c2 then r else [] :: r
    else
      match r with
      | p :: ps => (c :: p) :: ps
      | [] => [[c]]

/-- Iteration order of a JavaScript Set built from a list: duplicates are
removed, keeping the first occurrence of each element. -/
def dedupFirstGo {α : Type} [DecidableEq α] : List α → List α → List α
  | _, [] => []
  | seen, a :: as =>
    if a ∈ seen then dedupFirstGo seen as
    else a :: dedupFirstGo (a :: seen) as

/-- The element list of new Set(l), in insertion order. -/
def jsSetOf {α : Type} [DecidableEq α] (l : List α) : List α := dedupFirstGo [] l

/-- Embedding of scoreSimilarity(a, b): token sets from whitespace splits,
overlap counted over the first set, divided by the larger set size with the
or-1 guard against an empty denominator. -/
def scoreSimilarity (a b : JSString) : ℚ :=
  let ta := jsSetOf (jsSplitWS a)
  let tb := jsSetOf (jsSplitWS b)
  let overlap := (ta.filter (fun w => decide (w ∈ tb))).length
  let maxLen := if max ta.length tb.length = 0 then 1 else max ta.length tb.length
  mkRat overlap maxLen

/-! ## Audio relay (server.js, GET /api/proxy-audio) -/

/-- The fixed allowlist of audio CDN hosts. -/
def ALLOWED_AUDIO_HOSTS : List JSString :=
  [jsStr "audiopipe.suno.ai", jsStr "cdn.suno.ai", jsStr "cdn1.suno.ai",
   jsStr "cdn2.suno.ai", jsStr "cdn3.suno.ai"]

/-- Embedding of isAllowedAudioHost(hostname): an empty hostname is refused;
otherwise the lowercased hostname must equal an allowlisted host or end with
a dot followed by one. -/
def isAllowedAudioHost (hostname : JSString) : Bool :=
  if hostname = [] then false
  else
    let lower := jsToLower hostname
    ALLOWED_AUDIO_HOSTS.any (fun allowed =>
      lower == allowed || ('.' :: allowed).isSuffixOf lower)

/-- The components of a parsed WHATWG URL that this code base reads. -/
structure JsURL where
  protocol : JSString
  hostname : JSString
deriving DecidableEq

/-- Result of the relay handler up to the point where an outbound request
would be issued: either a 400 response, a 403 response, or an outbound fetch
of the validated URL. -/
inductive ProxyOutcome where
  | badRequest
  | forbidden
  | relay (url : JsURL)
deriving DecidableEq

/-- Embedding of the validation prefix of GET /api/proxy-audio.  The WHATWG
URL parser is passed as an oracle; an empty src models a missing or
non-string parameter. -/
def proxyAudio (parseURL : JSString → Option JsURL) (src : JSString) : ProxyOutcome :=
  if src = [] then ProxyOutcome.badRequest
  else
    match parseURL src with
    | none => ProxyOutcome.badRequest
    | some url =>
      if url.protocol ≠ jsStr "https:" then ProxyOutcome.badRequest
      else if !(isAllowedAudioHost url.hostname) then ProxyOutcome.forbidden
      else ProxyOutcome.relay url

/-! ## normalizeSunoAudioUrl (server.js) -/

/-- The fixed hostname migration map. -/
def SUNO_AUDIO_HOST_MIGRATIONS : List (JSString × JSString) :=
  [(jsStr "audiopipe.suno.ai", jsStr "cdn1.suno.ai")]

/-- Map.prototype.get over the migration map. -/
def migrationsGet (host : JSString) : Option JSString :=
  (SUNO_AUDIO_HOST_MIGRATIONS.find? (fun p => p.1 == host)).map (fun p => p.2)

/-- Embedding of normalizeSunoAudioUrl(value, migrateHost).  The URL parser
and serializer of the platform are passed as oracles; a non-string input is
outside the model (the source returns the empty string for it). -/
def normalizeSunoAudioUrl (parseURL : JSString → Option JsURL)
    (urlToString : JsURL → JSString) (migrateHost : Bool) (value : JSString) : JSString :=
  let trimmed := jsTrim value
  if trimmed = [] then []
  else if trimmed.head? = some '/' then trimmed
  else
    match parseURL trimmed with
    | some parsed =>
      let lowerHost := jsToLower parsed.hostname
      let parsed2 :=
        if migrateHost then
          match migrationsGet lowerHost with
          | some migratedHost => { parsed with hostname := migratedHost }
          | none => parsed
        else parsed
      urlToString parsed2
    | none => trimmed

/-! ## GET /api/song-status, task-id branch (server.js) -/

/-- Response.ok of the fetch API: HTTP status in the 2xx range. -/
def isOkStatus (s : Nat) : Bool := decide (200 ≤ s ∧ s ≤ 299)

/-- Statuses treated as terminal authentication failures. -/
def isAuthStatus (s : Nat) : Bool := decide (s = 401 ∨ s = 403)

/-- Statuses treated as a job that has not materialized yet. -/
def isPendingStatus (s : Nat) : Bool := decide (s = 400 ∨ s = 404 ∨ s = 422)

/-- The upstream reply observed for one task id: the HTTP status, the rows
found under the data key of the parsed body (empty when the body held no
array there), and the raw details used for error reporting.  The row type is
abstract. -/
structure TaskReply (ρ : Type) where
  status : Nat
  data : List ρ
  details : JSString
deriving DecidableEq

/-- The per-id intermediate object built inside the Promise.all callback. -/
structure IdResult (ρ : Type) where
  id : JSString
  ok : Bool
  authError : Bool
  pending : Bool
  status : Nat
  data : List ρ
  details : JSString

/-- Embedding of the per-id classification in GET /api/song-status. -/
def perIdResult {ρ : Type} (id : JSString) (r : TaskReply ρ) : IdResult ρ :=
  if isOkStatus r.status then ⟨id, true, false, false, r.status, r.data, r.details⟩
  else if r.status = 401 ∨ r.status = 403 then ⟨id, false, true, false, r.status, [], r.details⟩
  else if r.status = 400 ∨ r.status = 404 ∨ r.status = 422 then
    ⟨id, false, false, true, r.status, [], r.details⟩
  else ⟨id, false, false, false, r.status, [], r.details⟩

/-- One row of the aggregated response: either a row passed through from a
2xx upstream reply, or the synthesized pending row for a task id. -/
inductive JobRow (ρ : Type) where
  | upstream (row : ρ)
  | pendingFor (taskId : JSString)
deriving DecidableEq

/-- The authentication failure short-circuit: its HTTP status and details. -/
structure AuthFailure where
  status : Nat
  details : JSString
deriving DecidableEq

/-- Embedding of the task-id branch of GET /api/song-status: classify every
reply, short-circuit on the first authentication error, otherwise aggregate
the completed rows followed by the synthesized pending rows. -/
def songStatusByTask {ρ : Type} (replies : List (JSString × TaskReply ρ)) :
    Except AuthFailure (List (JobRow ρ)) :=
  let results := replies.map (fun p => perIdResult p.1 p.2)
  match results.find? (fun r => r.authError) with
  | some authFailure => Except.error ⟨authFailure.status, authFailure.details⟩
  | none =>
    let completedRows := results.flatMap (fun r => if r.ok then r.data.map JobRow.upstream else [])
    let pendingRows := (results.filter (fun r => !r.ok && r.pending)).map
      (fun r => JobRow.pendingFor r.id)
    Except.ok (completedRows ++ pendingRows)

/-! ## callOpenRouterWithRetries and generateLyricsWithOpenRouter (server.js) -/

/-- The outcome of one call to callOpenRouterOnce for a given model: the
returned text on success, otherwise the error status (0 for a network,
abort or missing-content failure). -/
inductive AttemptOutcome where
  | success (text : JSString)
  | failure (status : Nat)

/-- Trace of one run of callOpenRouterWithRetries: the final result (none
models the undefined return of a zero-attempt loop), the sleep delays
performed between attempts in order, and the number of attempts issued. -/
structure RetryRun where
  result : Option (Except Nat JSString)
  delays : List Nat
  used : Nat

/-- Embedding of the retry loop of callOpenRouterWithRetries.  The fuel
argument counts the remaining loop iterations (attempts minus i), keeping
the recursion structural; i is the loop counter used to index the per-model
outcome oracle, and delay carries the current backoff. -/
def retriesGo (oracle : Nat → AttemptOutcome) (attempts : Nat) :
    Nat → Nat → Nat → RetryRun
  | 0, _, _ => ⟨none, [], 0⟩
  | fuel + 1, i, delay =>
    match oracle i with
    | AttemptOutcome.success t => ⟨some (Except.ok t), [], 1⟩
    | AttemptOutcome.failure status =>
      if ¬(500 ≤ status ∨ status = 0) ∨ i + 1 = attempts then
        ⟨some (Except.error status), [], 1⟩
      else
        let r := retriesGo oracle attempts fuel (i + 1) (delay * 2)
        ⟨r.result, delay :: r.delays, r.used + 1⟩

/-- Embedding of callOpenRouterWithRetries with its default of 3 attempts
and an initial backoff of 750 milliseconds. -/
def callOpenRouterWithRetries (oracle : Nat → AttemptOutcome) (attempts : Nat := 3) : RetryRun :=
  retriesGo oracle attempts attempts 0 750

/-- The retry classification of one attempt outcome: a 5xx status or the
status 0 used for network, abort and missing-content failures is retryable;
a success or any other failure is not. -/
def isRetryableOutcome : AttemptOutcome → Bool
  | AttemptOutcome.success _ => false
  | AttemptOutcome.failure status => decide (500 ≤ status ∨ status = 0)

/-- The regular expression backslash-w test used on generated lyrics: the
string holds an ASCII letter, digit or underscore. -/
def hasWordChar (s : JSString) : Bool := s.any (fun c => c.isAlphanum || c = '_')

/-- The text obtained from one single-attempt call for a model, when that
call succeeded. -/
def lyricAttemptText (m : Nat → AttemptOutcome) : Option JSString :=
  match (callOpenRouterWithRetries m 1).result with
  | some (Except.ok t) => some t
  | _ => none

/-- Whether the fallback loop accepts the text of a model: the call
succeeded with non-empty text containing a word character. -/
def lyricAccepted (m : Nat → AttemptOutcome) : Bool :=
  match lyricAttemptText m with
  | some t => !t.isEmpty && hasWordChar t
  | none => false

/-- Embedding of the model loop of generateLyricsWithOpenRouter, with a
trace accumulator recording one RetryRun per model attempted.  Each model is
a per-attempt outcome oracle; the loop calls callOpenRouterWithRetries with
attempts set to 1, accepts text passing the truthiness and word-character
tests, and otherwise moves on; when every model is exhausted the news digest
itself is capped and returned. -/
def generateLyricsGo (digest : JSString) :
    List (Nat → AttemptOutcome) → List RetryRun → JSString × List RetryRun
  | [], trace => (enforcePromptLimit digest, trace)
  | m :: rest, trace =>
    let run := callOpenRouterWithRetries m 1
    match run.result with
    | some (Except.ok lyrics) =>
      if !lyrics.isEmpty && hasWordChar lyrics then
        (enforcePromptLimit lyrics, trace ++ [run])
      else generateLyricsGo digest rest (trace ++ [run])
    | _ => generateLyricsGo digest rest (trace ++ [run])

/-- Embedding of generateLyricsWithOpenRouter(stories), abstracted over the
formatted digest of the stories and the ordered model list. -/
def generateLyricsWithOpenRouter (digest : JSString)
    (models : List (Nat → AttemptOutcome)) : JSString × List RetryRun :=
  generateLyricsGo digest models []

/-! ## Feed parsing (api/newsService.js) -/

/-- Index of the first occurrence of a needle inside a haystack. -/
def subIndex {α : Type} [DecidableEq α] (needle : List α) : List α → Option Nat
  | [] => if needle.isEmpty then some 0 else none
  | a :: rest =>
    if needle.isPrefixOf (a :: rest) then some 0
    else (subIndex needle rest).map (fun n => n + 1)

/-- Replacement of every tag-shaped region (an opening angle bracket up to
the next closing one) by a single space, as the global regular expression
replace in stripHtml.  The fuel argument keeps recursion structural and is
seeded with the length of the string. -/
def stripTagsGo : Nat → JSString → JSString
  | 0, s => s
  | fuel + 1, [] => []
  | fuel + 1, c :: rest =>
    if c = '<' then
      if rest.contains '>' then
        ' ' :: stripTagsGo fuel ((rest.dropWhile (fun x => x ≠ '>')).tail)
      else c :: rest
    else c :: stripTagsGo fuel rest

/-- Replacement of every maximal whitespace run by one space. -/
def collapseWS : JSString → JSString
  | [] => []
  | c :: rest =>
    let r := collapseWS rest
    if jsIsSpace c then
      match rest with
      | [] => ' ' :: r
      | c2 :: _ => if jsIsSpace c2 then r else ' ' :: r
    else c :: r

/-- Embedding of stripHtml(text) from the news service: drop tags, collapse
whitespace, trim. -/
def stripHtml (text : JSString) : JSString :=
  jsTrim (collapseWS (stripTagsGo text.length text))

/-- The inner texts of the successive non-overlapping item elements of a
feed document, in document order, as produced by repeatedly executing the
lazy item pattern of parseFeed.  Matching is case-insensitive; the fuel is
seeded with the document length. -/
def itemBlocksGo : Nat → JSString → List JSString
  | 0, _ => []
  | fuel + 1, s =>
    let lower := jsToLower s
    match subIndex (jsStr "<item>") lower with
    | none => []
    | some i =>
      match subIndex (jsStr "</item>") (lower.drop (i + 6)) with
      | none => []
      | some j => ((s.drop (i + 6)).take j) :: itemBlocksGo fuel (s.drop (i + 6 + j + 7))

/-- The item inner texts of a feed document. -/
def itemBlocks (xml : JSString) : List JSString := itemBlocksGo xml.length xml

/-- One story of the feed parser: headline, summary and link. -/
structure Story where
  headline : JSString
  summary : JSString
  link : JSString
deriving DecidableEq

/-- Embedding of the item loop of parseFeed: scan items in order while
fewer than limit stories have been collected, keeping an item only when its
stripped title is non-empty.  The tag extraction (a regular-expression
lookup handling CDATA and entity decoding) is passed as an oracle taking
the item text and the tag name. -/
def parseFeedItemsGo (tagVal : JSString → JSString → JSString) :
    List JSString → Nat → List Story
  | _, 0 => []
  | [], _ => []
  | itemXml :: rest, limit + 1 =>
    let headline := stripHtml (tagVal itemXml (jsStr "title"))
    let summary := stripHtml (tagVal itemXml (jsStr "description"))
    let link := tagVal itemXml (jsStr "link")
    if headline ≠ [] then ⟨headline, summary, link⟩ :: parseFeedItemsGo tagVal rest limit
    else parseFeedItemsGo tagVal rest (limit + 1)

/-- Embedding of parseFeed(xml, limit). -/
def parseFeed (tagVal : JSString → JSString → JSString) (xml : JSString) (limit : Nat) :
    List Story :=
  parseFeedItemsGo tagVal (itemBlocks xml) limit

/-! ## Article extraction (api/articleService.js) -/

/-- The first match of a lazy open-to-close tag pattern with the ignore-case
flag, as used by extractCandidateBlocks: the match starts at the first
occurrence of the opening bracket text and ends at the first occurrence of
the closing tag after it, and fails when either is absent. -/
def findTagBlock (openTag closeTag : JSString) (html : JSString) : Option JSString :=
  let lower := jsToLower html
  match subIndex openTag lower with
  | none => none
  | some i =>
    match subIndex closeTag (lower.drop (i + openTag.length)) with
    | none => none
    | some j => some ((html.drop i).take (openTag.length + j + closeTag.length))

/-- Embedding of extractCandidateBlocks(html): push the first article match
when present, then the first main match when present, then the first body
match when present, else the whole document. -/
def extractCandidateBlocks (html : JSString) : List JSString :=
  let blocks : List JSString := []
  let blocks :=
    match findTagBlock (jsStr "<article") (jsStr "</article>") html with
    | some b => blocks ++ [b]
    | none => blocks
  let blocks :=
    match findTagBlock (jsStr "<main") (jsStr "</main>") html with
    | some b => blocks ++ [b]
    | none => blocks
  match findTagBlock (jsStr "<body") (jsStr "</body>") html with
  | some b => blocks ++ [b]
  | none => blocks ++ [html]

/-- Embedding of mergeParagraphs: case-insensitive deduplication keeping the
first occurrence, realized with the seen-set accumulator of the source. -/
def mergeParagraphsGo : List JSString → List JSString → List JSString
  | _, [] => []
  | seen, p :: rest =>
    let key := jsToLower p
    if key ∈ seen then mergeParagraphsGo seen rest
    else p :: mergeParagraphsGo (key :: seen) rest

/-- Embedding of mergeParagraphs(paragraphs). -/
def mergeParagraphs (paragraphs : List JSString) : List JSString :=
  mergeParagraphsGo [] paragraphs

/-- Paragraphs joined with a blank line between each. -/
def joinBlankLines (paragraphs : List JSString) : JSString :=
  List.intercalate (jsStr "\n\n") paragraphs

/-- The candidate text of one block: extract paragraphs (oracle for the
regular-expression work of extractParagraphs), deduplicate, join. -/
def articleCandidate (extractParas : JSString → List JSString) (block : JSString) : JSString :=
  joinBlankLines (mergeParagraphs (extractParas block))

/-- The candidate loop of fetchArticleContent: return the first candidate
whose joined text exceeds 400 characters. -/
def candidateLoop (extractParas : JSString → List JSString) : List JSString → Option JSString
  | [] => none
  | b :: rest =>
    let candidate := articleCandidate extractParas b
    if 400 < candidate.length then some candidate else candidateLoop extractParas rest

/-- Embedding of the extraction phase of fetchArticleContent(url), after the
page body has been fetched: try the candidate blocks in order, then fall
back to extracting over the whole document against the 200 character bar,
and fail (none) otherwise. -/
def fetchArticleBody (extractParas : JSString → List JSString) (html : JSString) :
    Option JSString :=
  match candidateLoop extractParas (extractCandidateBlocks html) with
  | some c => some c
  | none =>
    let fallback := articleCandidate extractParas html
    if 200 < fallback.length then some fallback else none

/-! ## Podcast plan validation (server.js, planPodcastWithOpenRouter) -/

/-- One raw entry of the selections array of the parsed planner reply; a
field is none when the JSON value there was not a string. -/
structure JsonEntry where
  headline : Option JSString
  source : Option JSString
  reason : Option JSString
  host_script : Option JSString

/-- The parsed planner reply: overview_script is none when not a string,
selections is none when not an array. -/
structure ParsedPlan where
  overview_script : Option JSString
  selections : Option (List JsonEntry)

/-- A normalized selection after the string checks and trims. -/
structure PlanSelection where
  headline : JSString
  source : JSString
  reason : JSString
  host_script : JSString
deriving DecidableEq

/-- The string check and trim applied to every selection field. -/
def optStrTrim : Option JSString → JSString
  | some s => jsTrim s
  | none => []

/-- Embedding of the normalization pipeline over the selections array: map
each entry to a trimmed record or null when the headline is missing or
blank, drop the nulls, and slice to the first three. -/
def normalizeSelections (entries : List JsonEntry) : List PlanSelection :=
  ((entries.map (fun entry =>
      match entry.headline with
      | some h =>
        let h2 := jsTrim h
        if h2 = [] then none
        else some (⟨h2, optStrTrim entry.source, optStrTrim entry.reason,
                    optStrTrim entry.host_script⟩ : PlanSelection)
      | none => none)).reduceOption).take 3

/-- The acceptance threshold for fuzzy headline matching. -/
def THRESHOLD : ℚ := mkRat 35 100

/-- The argmax loop over candidate stories: keep the running best story and
score, replacing them only on a strictly larger score. -/
def bestMatchGo (normKey : JSString → JSString) (key : JSString) :
    List Story → Option Story × ℚ → Option Story × ℚ
  | [], acc => acc
  | story :: rest, (best, bestScore) =>
    let storyKey := normKey story.headline
    let score := scoreSimilarity key storyKey
    if bestScore < score then bestMatchGo normKey key rest (some story, score)
    else bestMatchGo normKey key rest (best, bestScore)

/-- The best-scoring candidate for a normalized headline key, starting from
no candidate and score 0.  The headline normalizer (Unicode NFKD work in
normalizeHeadlineKey) is passed as an oracle. -/
def bestMatch (normKey : JSString → JSString) (stories : List Story) (key : JSString) :
    Option Story × ℚ :=
  bestMatchGo normKey key stories (none, 0)

/-- Embedding of the per-selection fuzzy-match step: resolve the selection
to the best-scoring story when the best score reaches the threshold,
replacing the headline with the matched story headline, else drop it. -/
def resolveSelection (normKey : JSString → JSString) (stories : List Story)
    (sel : PlanSelection) : Option PlanSelection :=
  let key := normKey sel.headline
  let bm := bestMatch normKey stories key
  if THRESHOLD ≤ bm.2 then
    match bm.1 with
    | some story => some { sel with headline := story.headline }
    | none => none
  else none

/-- The filtered selections: resolve each normalized selection and drop the
nulls. -/
def filterSelections (normKey : JSString → JSString) (stories : List Story)
    (normalized : List PlanSelection) : List PlanSelection :=
  (normalized.map (resolveSelection normKey stories)).reduceOption

/-- The validated plan returned by planPodcastWithOpenRouter. -/
structure PodcastPlan where
  overviewScript : JSString
  selections : List PlanSelection
deriving DecidableEq

/-- Embedding of the validation tail of planPodcastWithOpenRouter, from the
parsed JSON reply to the plan or the incomplete-plan error. -/
def planValidate (normKey : JSString → JSString) (stories : List Story)
    (parsed : ParsedPlan) : Except JSString PodcastPlan :=
  let overviewScript := optStrTrim parsed.overview_script
  let selections := parsed.selections.getD []
  let normalized := normalizeSelections selections
  let filtered := filterSelections normKey stories normalized
  if overviewScript = [] ∨ filtered.length ≠ 3 then
    Except.error (jsStr "Podcast planner returned an incomplete plan.")
  else Except.ok ⟨overviewScript, filtered⟩

/-! ## Feed aggregation and failure isolation (api/newsService.js) -/

/-- The observable outcome of one outbound request: a network error, or a
response with its status and body. -/
inductive FetchOutcome where
  | netError
  | response (status : Nat) (body : JSString)
deriving DecidableEq

/-- The standard fetch path of fetchXml: a network error or a non-2xx
status makes it throw, which the source catches to retry over the https
module. -/
def fetchStdOk : FetchOutcome → Option JSString
  | FetchOutcome.netError => none
  | FetchOutcome.response status body => if isOkStatus status then some body else none

/-- The https-module path of fetchXml: a network error rejects, a status of
400 or above rejects, anything else resolves with the body. -/
def fetchWithHttpsModule : FetchOutcome → Option JSString
  | FetchOutcome.netError => none
  | FetchOutcome.response status body => if 400 ≤ status then none else some body

/-- Embedding of fetchXml(url): when the fetch function exists, try it and
fall back to the https module on any failure; otherwise use the https
module directly.  The outcomes of the two possible requests are inputs. -/
def fetchXml (hasFetch : Bool) (std fallback : FetchOutcome) : Option JSString :=
  if hasFetch then
    match fetchStdOk std with
    | some body => some body
    | none => fetchWithHttpsModule fallback
  else fetchWithHttpsModule fallback

/-- One configured feed source together with the simulated outcomes of its
fetch attempts. -/
structure SourceSim where
  source : JSString
  std : FetchOutcome
  fallback : FetchOutcome
deriving DecidableEq

/-- A story tagged with the name of its source. -/
structure TaggedStory where
  headline : JSString
  summary : JSString
  link : JSString
  source : JSString
deriving DecidableEq

/-- The spread tagging each parsed story with its source name. -/
def tagStories (source : JSString) (stories : List Story) : List TaggedStory :=
  stories.map (fun st => ⟨st.headline, st.summary, st.link, source⟩)

/-- Embedding of fetchSourceStories(entry, limit): parse and tag on success,
swallow the failure into an empty list otherwise. -/
def fetchSourceStories (tagVal : JSString → JSString → JSString) (hasFetch : Bool)
    (entry : SourceSim) (limit : Nat) : List TaggedStory :=
  match fetchXml hasFetch entry.std entry.fallback with
  | some xml => tagStories entry.source (parseFeed tagVal xml limit)
  | none => []

/-- Embedding of fetchTopNews(limit): fetch every source independently and
concatenate the per-source results in source order. -/
def fetchTopNews (tagVal : JSString → JSString → JSString) (hasFetch : Bool)
    (sources : List SourceSim) (limit : Nat) : List TaggedStory :=
  (sources.map (fun entry => fetchSourceStories tagVal hasFetch entry limit)).flatten

/-! ## Helper lemmas -/

theorem length_dropWhileChar_le (p : Char → Bool) (l : List Char) :
    (l.dropWhile p).length ≤ l.length := by
  induction l with
  | nil => simp
  | cons a as ih =>
    by_cases h : p a
    · simp only [List.dropWhile_cons, h, if_true]
      exact Nat.le_succ_of_le ih
    · simp [List.dropWhile_cons, h]

theorem jsTrimEnd_length_le (s : JSString) : (jsTrimEnd s).length ≤ s.length := by
  simp only [jsTrimEnd, List.length_reverse]
  simpa using length_dropWhileChar_le jsIsSpace s.reverse

theorem jsTrim_of_all_space (s : JSString) (h : s.all jsIsSpace = true) : jsTrim s = [] := by
  have hEnd : jsTrimEnd s = [] := by
    simp only [jsTrimEnd, List.reverse_eq_nil_iff]
    rw [List.dropWhile_eq_nil_iff]
    intro x hx
    exact List.all_eq_true.mp h x (List.mem_reverse.mp hx)
  simp [jsTrim, hEnd, jsTrimStart]

theorem jsSplitWS_ne_nil : ∀ s : JSString, jsSplitWS s ≠ []
  | [] => by simp [jsSplitWS]
  | c :: rest => by
    have ih := jsSplitWS_ne_nil rest
    simp only [jsSplitWS]
    by_cases hc : jsIsSpace c
    · rw [if_pos hc]
      cases rest with
      | nil => simp
      | cons c2 r2 =>
        by_cases hc2 : jsIsSpace c2
        · simpa [hc2] using ih
        · simp [hc2]
    · rw [if_neg hc]
      cases hr : jsSplitWS rest with
      | nil => exact absurd hr ih
      | cons p ps => simp

theorem mem_dedupFirstGo {α : Type} [DecidableEq α] :
    ∀ (l seen : List α) (x : α), x ∈ dedupFirstGo seen l ↔ (x ∈ l ∧ x ∉ seen)
  | [], seen, x => by simp [dedupFirstGo]
  | a :: as, seen, x => by
    by_cases h : a ∈ seen
    · rw [dedupFirstGo, if_pos h, mem_dedupFirstGo as seen x]
      constructor
      · exact fun ⟨h1, h2⟩ => ⟨List.mem_cons_of_mem a h1, h2⟩
      · rintro ⟨h1, h2⟩
        rcases List.mem_cons.mp h1 with rfl | h1
        · exact absurd h h2
        · exact ⟨h1, h2⟩
    · rw [dedupFirstGo, if_neg h]
      simp only [List.mem_cons, mem_dedupFirstGo as (a :: seen) x]
      constructor
      · rintro (rfl | ⟨h1, h2⟩)
        · exact ⟨Or.inl rfl, h⟩
        · exact ⟨Or.inr h1, fun hx => h2 (Or.inr hx)⟩
      · rintro ⟨rfl | h1, h2⟩
        · exact Or.inl rfl
        · by_cases hxa : x = a
          · exact Or.inl hxa
          · exact Or.inr ⟨h1, fun hx => hx.elim hxa h2⟩

theorem nodup_dedupFirstGo {α : Type} [DecidableEq α] :
    ∀ (l seen : List α), (dedupFirstGo seen l).Nodup
  | [], _ => by simp [dedupFirstGo]
  | a :: as, seen => by
    by_cases h : a ∈ seen
    · rw [dedupFirstGo, if_pos h]
      exact nodup_dedupFirstGo as seen
    · rw [dedupFirstGo, if_neg h]
      refine List.nodup_cons.mpr ⟨?_, nodup_dedupFirstGo as (a :: seen)⟩
      intro hmem
      exact ((mem_dedupFirstGo as (a :: seen) a).mp hmem).2 (List.mem_cons_self a seen)

theorem nodup_jsSetOf {α : Type} [DecidableEq α] (l : List α) : (jsSetOf l).Nodup :=
  nodup_dedupFirstGo l []

theorem mem_jsSetOf {α : Type} [DecidableEq α] (l : List α) (x : α) :
    x ∈ jsSetOf l ↔ x ∈ l := by
  rw [jsSetOf, mem_dedupFirstGo]
  simp

theorem length_jsSetOf_pos {α : Type} [DecidableEq α] (l : List α) (h : l ≠ []) :
    1 ≤ (jsSetOf l).length := by
  cases l with
  | nil => exact absurd rfl h
  | cons a as =>
    have : a ∈ jsSetOf (a :: as) := (mem_jsSetOf _ _).mpr (List.mem_cons_self a as)
    cases hs : jsSetOf (a :: as) with
    | nil => rw [hs] at this; simp at this
    | cons b bs => simp

theorem overlap_comm (ta tb : List JSString) (ha : ta.Nodup) (hb : tb.Nodup) :
    (ta.filter (fun w => decide (w ∈ tb))).length =
      (tb.filter (fun w => decide (w ∈ ta))).length := by
  have key : ∀ (l₁ l₂ : List JSString), l₁.Nodup →
      (l₁.filter (fun w => decide (w ∈ l₂))).length = (l₁.toFinset ∩ l₂.toFinset).card := by
    intro l₁ l₂ h
    rw [← List.toFinset_card_of_nodup (List.Nodup.filter _ h)]
    congr 1
    ext x
    simp [List.mem_toFinset, List.mem_filter, Finset.mem_inter]
  rw [key _ _ ha, key _ _ hb, Finset.inter_comm]

/-! ## Claim C3: enforcePromptLimit -/

/-- Claim C3, counterexample to the claim as stated.  At input text a-space-bcd
with cap 3 the trimmed text is longer than the cap and the result ends with
the ellipsis, but its first two characters are not the first two characters
of the trimmed text, because the code strips trailing whitespace from the
sliced prefix before appending the ellipsis.  At cap 0 the result is even
longer than the cap, because the slice argument becomes negative. -/
theorem enforcePromptLimit_claim_counterexample :
    3 < (jsTrim (jsTrimEnd (jsStr "a bcd"))).length ∧
    (enforcePromptLimit (jsStr "a bcd") 3).take 2 ≠ (jsTrim (jsTrimEnd (jsStr "a bcd"))).take 2 ∧
    0 < (enforcePromptLimit (jsStr "ab") 0).length := by decide

/-- Claim C3 (amended): for every text and every cap of at least one
character, enforcePromptLimit returns at most cap characters, and when the
trimmed text is longer than the cap the result is exactly the first cap
minus one characters of the trimmed text with their trailing whitespace
stripped, followed by the ellipsis character, so in particular it ends with
the ellipsis. -/
theorem enforcePromptLimit_capped (T : JSString) (C : Nat) (hC : 1 ≤ C) :
    (enforcePromptLimit T C).length ≤ C ∧
    (C < (jsTrim (jsTrimEnd T)).length →
      enforcePromptLimit T C = jsTrimEnd ((jsTrim (jsTrimEnd T)).take (C - 1)) ++ [ellipsisChar] ∧
      (enforcePromptLimit T C).getLast? = some ellipsisChar) := by
  unfold enforcePromptLimit
  by_cases h : (jsTrim (jsTrimEnd T)).length ≤ C
  · rw [if_pos h]
    exact ⟨h, fun hlt => absurd hlt (by omega)⟩
  · rw [if_neg h]
    have he : jsSliceZero (jsTrim (jsTrimEnd T)) ((C : Int) - 1) = (jsTrim (jsTrimEnd T)).take (C - 1) := by
      unfold jsSliceZero
      rw [if_neg (by omega)]
      congr 1
      omega
    rw [he]
    refine ⟨?_, fun _ => ⟨rfl, List.getLast?_concat _⟩⟩
    rw [List.length_append, List.length_singleton]
    have h1 := jsTrimEnd_length_le ((jsTrim (jsTrimEnd T)).take (C - 1))
    have h2 : ((jsTrim (jsTrimEnd T)).take (C - 1)).length ≤ C - 1 := by
      rw [List.length_take]
      exact min_le_left _ _
    omega

/-- Claim C3, witness: the amended theorem applied at a concrete text and
cap. -/
theorem enforcePromptLimit_capped_witness :
    (enforcePromptLimit (jsStr "hello world") 3).length ≤ 3 :=
  (enforcePromptLimit_capped (jsStr "hello world") 3 (by decide)).1

/-! ## Claim C10: scoreSimilarity -/

/-- Claim C10: scoreSimilarity is total on all inputs: both token sets are
non-empty, even for empty strings, so the guarded denominator is never zero;
the score lies between 0 and 1; and the function is symmetric in its two
arguments. -/
theorem scoreSimilarity_total_bounded_symm (a b : JSString) :
    1 ≤ (jsSetOf (jsSplitWS a)).length ∧
    1 ≤ (jsSetOf (jsSplitWS b)).length ∧
    0 ≤ scoreSimilarity a b ∧
    scoreSimilarity a b ≤ 1 ∧
    scoreSimilarity a b = scoreSimilarity b a := by
  have hta : 1 ≤ (jsSetOf (jsSplitWS a)).length :=
    length_jsSetOf_pos _ (jsSplitWS_ne_nil a)
  have htb : 1 ≤ (jsSetOf (jsSplitWS b)).length :=
    length_jsSetOf_pos _ (jsSplitWS_ne_nil b)
  refine ⟨hta, htb, ?_, ?_, ?_⟩
  · rw [scoreSimilarity, Rat.mkRat_eq_div]
    positivity
  · rw [scoreSimilarity, Rat.mkRat_eq_div]
    set ta := jsSetOf (jsSplitWS a) with hta2
    set tb := jsSetOf (jsSplitWS b) with htb2
    have hmax : ¬(max ta.length tb.length = 0) := by
      intro h0
      have h1 := le_max_left ta.length tb.length
      rw [h0] at h1
      omega
    rw [if_neg hmax]
    rw [div_le_one (by positivity)]
    have hle : (ta.filter (fun w => decide (w ∈ tb))).length ≤ max ta.length tb.length :=
      le_trans (List.length_filter_le _ _) (le_max_left _ _)
    push_cast
    exact_mod_cast hle
  · rw [scoreSimilarity, scoreSimilarity]
    have hov := overlap_comm (jsSetOf (jsSplitWS a)) (jsSetOf (jsSplitWS b))
      (nodup_jsSetOf _) (nodup_jsSetOf _)
    have hmx : max (jsSetOf (jsSplitWS a)).length (jsSetOf (jsSplitWS b)).length =
        max (jsSetOf (jsSplitWS b)).length (jsSetOf (jsSplitWS a)).length :=
      max_comm _ _
    rw [hov, hmx]

/-! ## Claim C2: audio relay validation -/

/-- Claim C2: the relay returns 400 when src is missing or unparsable, 400
when the scheme is not exactly https, 403 when the scheme is https but the
hostname is neither an allowlisted audio host nor a dot-separated subdomain
of one, and in every such case no outbound request is issued: an outbound
relay outcome can only arise from a parsed https URL with an allowed
hostname. -/
theorem proxyAudio_validation (parseURL : JSString → Option JsURL) (src : JSString) :
    (src = [] → proxyAudio parseURL src = ProxyOutcome.badRequest) ∧
    (parseURL src = none → proxyAudio parseURL src = ProxyOutcome.badRequest) ∧
    (∀ url, src ≠ [] → parseURL src = some url → url.protocol ≠ jsStr "https:" →
      proxyAudio parseURL src = ProxyOutcome.badRequest) ∧
    (∀ url, src ≠ [] → parseURL src = some url → url.protocol = jsStr "https:" →
      isAllowedAudioHost url.hostname = false →
      proxyAudio parseURL src = ProxyOutcome.forbidden) ∧
    (∀ url, proxyAudio parseURL src = ProxyOutcome.relay url →
      src ≠ [] ∧ parseURL src = some url ∧ url.protocol = jsStr "https:" ∧
      isAllowedAudioHost url.hostname = true) ∧
    (∀ hostname, isAllowedAudioHost hostname = true ↔
      ∃ allowed ∈ ALLOWED_AUDIO_HOSTS,
        jsToLower hostname = allowed ∨ ∃ pre, jsToLower hostname = pre ++ '.' :: allowed) := by
  refine ⟨?_, ?_, ?_, ?_, ?_, ?_⟩
  · intro h
    rw [proxyAudio, if_pos h]
  · intro h
    by_cases hsrc : src = []
    · rw [proxyAudio, if_pos hsrc]
    · rw [proxyAudio, if_neg hsrc, h]
  · intro url hsrc hparse hproto
    rw [proxyAudio, if_neg hsrc, hparse]
    simp only [if_pos hproto]
  · intro url hsrc hparse hproto hhost
    rw [proxyAudio, if_neg hsrc, hparse]
    simp [hproto, hhost]
  · intro url h
    rw [proxyAudio] at h
    split at h
    · exact ProxyOutcome.noConfusion h
    next hsrc =>
      split at h
      next hparse => exact ProxyOutcome.noConfusion h
      next u hparse =>
        split at h
        next => exact ProxyOutcome.noConfusion h
        next hproto =>
          split at h
          next => exact ProxyOutcome.noConfusion h
          next hhost =>
            injection h with h2
            subst h2
            refine ⟨hsrc, hparse, by simpa using hproto, by simpa using hhost⟩
  · intro hostname
    rw [isAllowedAudioHost]
    by_cases hnil : hostname = []
    · rw [if_pos hnil]
      simp only [Bool.false_eq_true, false_iff]
      rintro ⟨allowed, hmem, hcase⟩
      rcases hcase with heq | ⟨pre, heq⟩
      · have hae : allowed = [] := by simpa [hnil, jsToLower] using heq.symm
        subst hae
        revert hmem
        decide
      · have heq2 : pre ++ '.' :: allowed = [] := by
          simpa [hnil, jsToLower] using heq.symm
        exact List.cons_ne_nil _ _ (List.append_eq_nil.mp heq2).2
    · rw [if_neg hnil]
      rw [List.any_eq_true]
      constructor
      · rintro ⟨allowed, hmem, hcond⟩
        rw [Bool.or_eq_true] at hcond
        rcases hcond with hcond | hcond
        · exact ⟨allowed, hmem, Or.inl (by simpa using hcond)⟩
        · refine ⟨allowed, hmem, Or.inr ?_⟩
          rcases List.isSuffixOf_iff_suffix.mp hcond with ⟨pre, hpre⟩
          exact ⟨pre, hpre.symm⟩
      · rintro ⟨allowed, hmem, hcase⟩
        refine ⟨allowed, hmem, ?_⟩
        rw [Bool.or_eq_true]
        rcases hcase with heq | ⟨pre, heq⟩
        · exact Or.inl (by simpa using heq)
        · exact Or.inr (List.isSuffixOf_iff_suffix.mpr ⟨pre, heq.symm⟩)

/-- Claim C2, witness: a non-https source URL is rejected with 400 by the
theorem applied at a concrete parser and src. -/
theorem proxyAudio_validation_witness :
    proxyAudio (fun _ => some ⟨jsStr "http:", jsStr "evil.example.com"⟩)
      (jsStr "http://evil.example.com/a.mp3") = ProxyOutcome.badRequest :=
  (proxyAudio_validation (fun _ => some ⟨jsStr "http:", jsStr "evil.example.com"⟩)
      (jsStr "http://evil.example.com/a.mp3")).2.2.1
    ⟨jsStr "http:", jsStr "evil.example.com"⟩ (by decide) rfl (by decide)

/-! ## Claim C8: normalizeSunoAudioUrl -/

/-- Claim C8: with host migration off, normalizeSunoAudioUrl returns the
empty string for empty or whitespace-only input, returns the trimmed input
unchanged when it starts with a slash, returns the serialization of the
parsed URL when the trimmed input parses, and echoes the trimmed input when
parsing fails. -/
theorem normalizeSunoAudioUrl_cases (parseURL : JSString → Option JsURL)
    (urlToString : JsURL → JSString) (value : JSString) :
    (jsTrim value = [] → normalizeSunoAudioUrl parseURL urlToString false value = []) ∧
    (value.all jsIsSpace = true → normalizeSunoAudioUrl parseURL urlToString false value = []) ∧
    ((jsTrim value).head? = some '/' →
      normalizeSunoAudioUrl parseURL urlToString false value = jsTrim value) ∧
    (∀ url, jsTrim value ≠ [] → (jsTrim value).head? ≠ some '/' →
      parseURL (jsTrim value) = some url →
      normalizeSunoAudioUrl parseURL urlToString false value = urlToString url) ∧
    (jsTrim value ≠ [] → (jsTrim value).head? ≠ some '/' → parseURL (jsTrim value) = none →
      normalizeSunoAudioUrl parseURL urlToString false value = jsTrim value) := by
  refine ⟨?_, ?_, ?_, ?_, ?_⟩
  · intro h
    rw [normalizeSunoAudioUrl, if_pos h]
  · intro h
    rw [normalizeSunoAudioUrl, if_pos (jsTrim_of_all_space value h)]
  · intro h
    have hne : ¬(jsTrim value = []) := by
      intro h0
      rw [h0] at h
      exact Option.noConfusion h
    rw [normalizeSunoAudioUrl, if_neg hne, if_pos h]
  · intro url hne hslash hparse
    rw [normalizeSunoAudioUrl, if_neg hne, if_neg hslash, hparse]
    simp
  · intro hne hslash hparse
    rw [normalizeSunoAudioUrl, if_neg hne, if_neg hslash, hparse]

/-- Claim C8, witness: a concrete unparsable input echoes its trimmed form,
by the theorem applied at a parser oracle that rejects everything. -/
theorem normalizeSunoAudioUrl_cases_witness :
    normalizeSunoAudioUrl (fun _ => none) (fun url => url.hostname) false (jsStr " abc ") =
      jsStr "abc" :=
  ((normalizeSunoAudioUrl_cases (fun _ => none) (fun url => url.hostname)
      (jsStr " abc ")).2.2.2.2 (by decide) (by decide) rfl).trans (by decide)

/-! ## Claim C1: song-status batch classification -/

theorem perIdResult_id {ρ : Type} (id : JSString) (r : TaskReply ρ) :
    (perIdResult id r).id = id := by
  rw [perIdResult]
  split
  · rfl
  · split
    · rfl
    · split <;> rfl

theorem perIdResult_status {ρ : Type} (id : JSString) (r : TaskReply ρ) :
    (perIdResult id r).status = r.status := by
  rw [perIdResult]
  split
  · rfl
  · split
    · rfl
    · split <;> rfl

theorem perIdResult_details {ρ : Type} (id : JSString) (r : TaskReply ρ) :
    (perIdResult id r).details = r.details := by
  rw [perIdResult]
  split
  · rfl
  · split
    · rfl
    · split <;> rfl

theorem perIdResult_ok {ρ : Type} (id : JSString) (r : TaskReply ρ) :
    (perIdResult id r).ok = isOkStatus r.status := by
  rw [perIdResult]
  split
  next h => simp [h]
  next h =>
    simp only [Bool.not_eq_true] at h
    split
    · simp [h]
    · split <;> simp [h]

theorem perIdResult_authError {ρ : Type} (id : JSString) (r : TaskReply ρ) :
    (perIdResult id r).authError = isAuthStatus r.status := by
  rw [perIdResult, isAuthStatus]
  split
  next h =>
    have hno : ¬(r.status = 401 ∨ r.status = 403) := by
      simp [isOkStatus] at h
      omega
    simp [hno]
  next =>
    split
    next h2 => simp [h2]
    next h2 =>
      split <;> simp [h2]

theorem perIdResult_pending {ρ : Type} (id : JSString) (r : TaskReply ρ) :
    (perIdResult id r).pending = isPendingStatus r.status := by
  rw [perIdResult, isPendingStatus]
  split
  next h =>
    have hno : ¬(r.status = 400 ∨ r.status = 404 ∨ r.status = 422) := by
      simp [isOkStatus] at h
      omega
    simp [hno]
  next =>
    split
    next h2 =>
      have hno : ¬(r.status = 400 ∨ r.status = 404 ∨ r.status = 422) := by omega
      simp [hno]
    next =>
      split
      next h3 => simp [h3]
      next h3 => simp [h3]

theorem perIdResult_data {ρ : Type} (id : JSString) (r : TaskReply ρ) :
    (perIdResult id r).data = if isOkStatus r.status then r.data else [] := by
  rw [perIdResult]
  split
  next h => simp [h]
  next h =>
    simp only [Bool.not_eq_true] at h
    split
    · simp [h]
    · split <;> simp [h]

theorem find?_map_auth {ρ : Type} (replies : List (JSString × TaskReply ρ)) :
    (replies.map (fun p => perIdResult p.1 p.2)).find? (fun r => r.authError) =
      (replies.find? (fun p => isAuthStatus p.2.status)).map (fun p => perIdResult p.1 p.2) := by
  induction replies with
  | nil => simp
  | cons p ps ih =>
    cases h : isAuthStatus p.2.status with
    | true => simp [List.find?_cons, perIdResult_authError, h]
    | false => simp [List.find?_cons, perIdResult_authError, h, ih]

theorem pending_not_ok (s : Nat) : (!isOkStatus s && isPendingStatus s) = isPendingStatus s := by
  cases h : isPendingStatus s with
  | true =>
    have h2 : isOkStatus s = false := by
      simp only [isPendingStatus, decide_eq_true_eq] at h
      simp [isOkStatus]
      omega
    simp [h2, h]
  | false => simp [h]

theorem completedRows_eq {ρ : Type} (replies : List (JSString × TaskReply ρ)) :
    (replies.map (fun p => perIdResult p.1 p.2)).flatMap
        (fun r => if r.ok then r.data.map JobRow.upstream else []) =
      (replies.filter (fun p => isOkStatus p.2.status)).flatMap
        (fun p => p.2.data.map JobRow.upstream) := by
  induction replies with
  | nil => simp
  | cons p ps ih =>
    cases h : isOkStatus p.2.status with
    | true =>
      simp only [List.map_cons, List.flatMap_cons, List.filter_cons, h, if_true,
        perIdResult_ok, perIdResult_data, ih]
    | false =>
      simp only [List.map_cons, List.flatMap_cons, List.filter_cons, h,
        perIdResult_ok, perIdResult_data, ih, Bool.false_eq_true, if_false,
        List.nil_append]

theorem pendingRows_eq {ρ : Type} (replies : List (JSString × TaskReply ρ)) :
    ((replies.map (fun p => perIdResult p.1 p.2)).filter (fun r => !r.ok && r.pending)).map
        (fun r => JobRow.pendingFor (ρ := ρ) r.id) =
      (replies.filter (fun p => isPendingStatus p.2.status)).map
        (fun p => JobRow.pendingFor p.1) := by
  induction replies with
  | nil => simp
  | cons p ps ih =>
    have hcond : (!(perIdResult p.1 p.2).ok && (perIdResult p.1 p.2).pending) =
        isPendingStatus p.2.status := by
      rw [perIdResult_ok, perIdResult_pending, pending_not_ok]
    cases h : isPendingStatus p.2.status with
    | true =>
      simp only [List.map_cons, List.filter_cons, hcond, h, if_true, List.map_cons,
        perIdResult_id, ih]
    | false =>
      simp only [List.map_cons, List.filter_cons, hcond, h, Bool.false_eq_true, if_false, ih]

/-- Claim C1: for a poll over a non-empty list of task ids, where each id
received an upstream reply with a status, data rows and details: a 401 or
403 on any id short-circuits the whole call into an authentication error
carrying the status and details of the first such reply and no job rows;
otherwise the aggregate contains exactly the data rows of the 2xx replies
followed by one pending row per 400, 404 or 422 reply, and every other
non-2xx reply contributes nothing without failing the batch. -/
theorem songStatus_batch_classification {ρ : Type} (replies : List (JSString × TaskReply ρ))
    (hne : replies ≠ []) :
    (∀ p, replies.find? (fun q => isAuthStatus q.2.status) = some p →
      songStatusByTask replies = Except.error ⟨p.2.status, p.2.details⟩) ∧
    (replies.find? (fun q => isAuthStatus q.2.status) = none →
      songStatusByTask replies = Except.ok (
        (replies.filter (fun q => isOkStatus q.2.status)).flatMap
          (fun q => q.2.data.map JobRow.upstream) ++
        (replies.filter (fun q => isPendingStatus q.2.status)).map
          (fun q => JobRow.pendingFor q.1))) := by
  constructor
  · intro p hfind
    rw [songStatusByTask, find?_map_auth, hfind]
    simp [perIdResult_status, perIdResult_details]
  · intro hfind
    rw [songStatusByTask, find?_map_auth, hfind]
    simp only [Option.map_none']
    rw [completedRows_eq, pendingRows_eq]

/-- Claim C1, witness: one task id answered 401 short-circuits into the
authentication error, by the theorem applied at a concrete reply list. -/
theorem songStatus_batch_classification_witness :
    songStatusByTask [(jsStr "t1", (⟨401, ([] : List Nat), jsStr "denied"⟩ : TaskReply Nat))] =
      Except.error ⟨401, jsStr "denied"⟩ :=
  (songStatus_batch_classification
      [(jsStr "t1", (⟨401, ([] : List Nat), jsStr "denied"⟩ : TaskReply Nat))]
      (List.cons_ne_nil _ _)).1
    (jsStr "t1", ⟨401, [], jsStr "denied"⟩) rfl

/-! ## Claim C5: parseFeed keeps the first items with non-empty titles -/

theorem parseFeedItemsGo_eq (tagVal : JSString → JSString → JSString) :
    ∀ (items : List JSString) (limit : Nat),
      parseFeedItemsGo tagVal items limit =
        ((items.filter
            (fun itemXml => decide (stripHtml (tagVal itemXml (jsStr "title")) ≠ []))).take
          limit).map
          (fun itemXml =>
            (⟨stripHtml (tagVal itemXml (jsStr "title")),
              stripHtml (tagVal itemXml (jsStr "description")),
              tagVal itemXml (jsStr "link")⟩ : Story))
  | [], limit => by cases limit <;> simp [parseFeedItemsGo]
  | itemXml :: rest, 0 => by simp [parseFeedItemsGo]
  | itemXml :: rest, limit + 1 => by
    by_cases h : stripHtml (tagVal itemXml (jsStr "title")) = []
    · simp [parseFeedItemsGo, h, parseFeedItemsGo_eq tagVal rest (limit + 1), List.filter_cons]
    · simp [parseFeedItemsGo, h, parseFeedItemsGo_eq tagVal rest limit, List.filter_cons]

/-- Claim C5: for every feed document and limit, parseFeed returns exactly
the first limit-many items whose stripped title is non-empty, in document
order, mapped to stories; items with an empty stripped title contribute
nothing, and the result length is the minimum of the number of such items
and the limit. -/
theorem parseFeed_first_nonempty_titles (tagVal : JSString → JSString → JSString)
    (xml : JSString) (limit : Nat) :
    parseFeed tagVal xml limit =
      (((itemBlocks xml).filter
          (fun itemXml => decide (stripHtml (tagVal itemXml (jsStr "title")) ≠ []))).take
        limit).map
        (fun itemXml =>
          (⟨stripHtml (tagVal itemXml (jsStr "title")),
            stripHtml (tagVal itemXml (jsStr "description")),
            tagVal itemXml (jsStr "link")⟩ : Story)) ∧
    (parseFeed tagVal xml limit).length =
      min limit
        ((itemBlocks xml).filter
          (fun itemXml => decide (stripHtml (tagVal itemXml (jsStr "title")) ≠ []))).length := by
  have h := parseFeedItemsGo_eq tagVal (itemBlocks xml) limit
  refine ⟨h, ?_⟩
  rw [parseFeed, h]
  rw [List.length_map, List.length_take]

/-! ## Claim C6: article candidate selection -/

theorem candidateLoop_eq (extractParas : JSString → List JSString) :
    ∀ blocks : List JSString,
      candidateLoop extractParas blocks =
        (blocks.map (articleCandidate extractParas)).find?
          (fun c => decide (400 < c.length))
  | [] => by simp [candidateLoop]
  | b :: rest => by
    by_cases h : 400 < (articleCandidate extractParas b).length
    · simp [candidateLoop, h, List.find?_cons]
    · simp [candidateLoop, h, List.find?_cons, candidateLoop_eq extractParas rest]

/-- Claim C6: the candidate blocks are exactly the first article match when
present, then the first main match when present, then the first body match
or the whole document; extraction returns the first candidate whose
deduplicated joined paragraphs exceed 400 characters, else the whole
document extraction when it exceeds 200 characters, else fails. -/
theorem fetchArticleBody_candidate_selection (extractParas : JSString → List JSString)
    (html : JSString) :
    extractCandidateBlocks html =
      (findTagBlock (jsStr "<article") (jsStr "</article>") html).toList ++
      (findTagBlock (jsStr "<main") (jsStr "</main>") html).toList ++
      [(findTagBlock (jsStr "<body") (jsStr "</body>") html).getD html] ∧
    fetchArticleBody extractParas html =
      (match ((extractCandidateBlocks html).map (articleCandidate extractParas)).find?
          (fun c => decide (400 < c.length)) with
       | some c => some c
       | none =>
         if 200 < (articleCandidate extractParas html).length
         then some (articleCandidate extractParas html) else none) := by
  constructor
  · rw [extractCandidateBlocks]
    cases h1 : findTagBlock (jsStr "<article") (jsStr "</article>") html <;>
      cases h2 : findTagBlock (jsStr "<main") (jsStr "</main>") html <;>
        cases h3 : findTagBlock (jsStr "<body") (jsStr "</body>") html <;>
          simp
  · rw [fetchArticleBody, candidateLoop_eq extractParas (extractCandidateBlocks html)]

/-! ## Claim C9: feed failure isolation -/

theorem fetchTopNews_eq (tagVal : JSString → JSString → JSString) (hasFetch : Bool)
    (limit : Nat) :
    ∀ sources : List SourceSim,
      fetchTopNews tagVal hasFetch sources limit =
        (sources.filter
            (fun entry => (fetchXml hasFetch entry.std entry.fallback).isSome)).flatMap
          (fun entry =>
            tagStories entry.source
              (parseFeed tagVal ((fetchXml hasFetch entry.std entry.fallback).getD []) limit))
  | [] => by simp [fetchTopNews]
  | s :: ss => by
    have hstep : fetchTopNews tagVal hasFetch (s :: ss) limit =
        fetchSourceStories tagVal hasFetch s limit ++ fetchTopNews tagVal hasFetch ss limit := by
      rw [fetchTopNews, fetchTopNews, List.map_cons, List.flatten_cons]
    rw [hstep, fetchTopNews_eq tagVal hasFetch limit ss]
    cases h : fetchXml hasFetch s.std s.fallback with
    | none => simp [fetchSourceStories, h, List.filter_cons]
    | some xml => simp [fetchSourceStories, h, List.filter_cons]

/-- Claim C9: the aggregate fetch never fails: it equals the concatenation,
in source order, of the parsed and source-tagged stories of exactly those
sources whose fetch produced a body, and every source whose fetch failed
contributes the empty list. -/
theorem fetchTopNews_failure_isolation (tagVal : JSString → JSString → JSString)
    (hasFetch : Bool) (sources : List SourceSim) (limit : Nat) :
    fetchTopNews tagVal hasFetch sources limit =
      (sources.filter
          (fun entry => (fetchXml hasFetch entry.std entry.fallback).isSome)).flatMap
        (fun entry =>
          tagStories entry.source
            (parseFeed tagVal ((fetchXml hasFetch entry.std entry.fallback).getD []) limit)) ∧
    (∀ entry ∈ sources, fetchXml hasFetch entry.std entry.fallback = none →
      fetchSourceStories tagVal hasFetch entry limit = []) := by
  refine ⟨fetchTopNews_eq tagVal hasFetch limit sources, ?_⟩
  intro entry hmem hnone
  rw [fetchSourceStories, hnone]

/-- Claim C9, witness: a source failing on both fetch paths contributes no
stories, by the theorem applied at a concrete configuration. -/
theorem fetchTopNews_failure_isolation_witness :
    fetchSourceStories (fun _ _ => []) true
      ⟨jsStr "BBC News", FetchOutcome.netError, FetchOutcome.netError⟩ 5 = [] :=
  (fetchTopNews_failure_isolation (fun _ _ => []) true
      [⟨jsStr "BBC News", FetchOutcome.netError, FetchOutcome.netError⟩] 5).2
    ⟨jsStr "BBC News", FetchOutcome.netError, FetchOutcome.netError⟩
    (List.mem_singleton.mpr rfl) rfl

/-! ## Claim C4: retry and fallback policy -/

theorem retriesGo_spec (oracle : Nat → AttemptOutcome) (attempts : Nat) :
    ∀ fuel : Nat, ∀ i delay : Nat, 1 ≤ fuel → i + fuel = attempts →
      ∃ n, 1 ≤ n ∧ n ≤ fuel ∧
        (retriesGo oracle attempts fuel i delay).used = n ∧
        (retriesGo oracle attempts fuel i delay).delays =
          (List.range (n - 1)).map (fun k => delay * 2 ^ k) ∧
        (∀ k, k < n - 1 → isRetryableOutcome (oracle (i + k)) = true) ∧
        (match oracle (i + (n - 1)) with
         | AttemptOutcome.success t =>
           (retriesGo oracle attempts fuel i delay).result = some (Except.ok t)
         | AttemptOutcome.failure st =>
           (retriesGo oracle attempts fuel i delay).result = some (Except.error st) ∧
             (500 ≤ st ∨ st = 0 → i + n = attempts)) := by
  intro fuel
  induction fuel with
  | zero => exact fun i delay h1 _ => absurd h1 (by omega)
  | succ fuel ih =>
    intro i delay h1 h2
    cases ho : oracle i with
    | success t =>
      have hr : retriesGo oracle attempts (fuel + 1) i delay = ⟨some (Except.ok t), [], 1⟩ := by
        simp only [retriesGo, ho]
      refine ⟨1, le_refl 1, by omega, by rw [hr], by rw [hr]; simp,
        fun k hk => absurd hk (by omega), ?_⟩
      have hidx : i + (1 - 1) = i := by omega
      rw [hidx, ho, hr]
    | failure st =>
      by_cases hstop : ¬(500 ≤ st ∨ st = 0) ∨ i + 1 = attempts
      · have hr : retriesGo oracle attempts (fuel + 1) i delay =
            ⟨some (Except.error st), [], 1⟩ := by
          simp only [retriesGo, ho, if_pos hstop]
        refine ⟨1, le_refl 1, by omega, by rw [hr], by rw [hr]; simp,
          fun k hk => absurd hk (by omega), ?_⟩
        have hidx : i + (1 - 1) = i := by omega
        rw [hidx, ho, hr]
        refine ⟨rfl, fun hre => ?_⟩
        rcases hstop with hstop | hstop
        · exact absurd hre hstop
        · omega
      · push_neg at hstop
        have hfuel : 1 ≤ fuel := by omega
        obtain ⟨n, hn1, hn2, hused, hdelays, hretry, hmatch⟩ :=
          ih (i + 1) (delay * 2) hfuel (by omega)
        have hr : retriesGo oracle attempts (fuel + 1) i delay =
            ⟨(retriesGo oracle attempts fuel (i + 1) (delay * 2)).result,
             delay :: (retriesGo oracle attempts fuel (i + 1) (delay * 2)).delays,
             (retriesGo oracle attempts fuel (i + 1) (delay * 2)).used + 1⟩ := by
          have hnot : ¬(¬(500 ≤ st ∨ st = 0) ∨ i + 1 = attempts) := by
            intro hcon
            rcases hcon with hno | hb
            · exact hno hstop.1
            · exact hstop.2 hb
          simp only [retriesGo, ho, if_neg hnot]
        refine ⟨n + 1, by omega, by omega, ?_, ?_, ?_, ?_⟩
        · rw [hr]
          simp [hused]
        · rw [hr]
          simp only [hdelays]
          have hone : n + 1 - 1 = n := by omega
          rw [hone]
          have hn3 : n = (n - 1) + 1 := by omega
          rw [hn3, List.range_succ_eq_map, List.map_cons, List.map_map]
          simp only [pow_zero, mul_one]
          congr 1
          apply List.map_congr_left
          intro k _
          show delay * 2 * 2 ^ k = delay * 2 ^ (k + 1)
          ring
        · intro k hk
          cases k with
          | zero =>
            have : isRetryableOutcome (oracle i) = true := by
              rw [ho, isRetryableOutcome]
              simpa using hstop.1
            simpa using this
          | succ k2 =>
            have hk2 : k2 < n - 1 := by omega
            have := hretry k2 hk2
            have hidx : i + (k2 + 1) = i + 1 + k2 := by omega
            rw [hidx]
            exact this
        · have hidx : i + (n + 1 - 1) = i + 1 + (n - 1) := by omega
          rw [hidx]
          cases hon : oracle (i + 1 + (n - 1)) with
          | success t =>
            rw [hon] at hmatch
            rw [hr]
            exact hmatch
          | failure st2 =>
            rw [hon] at hmatch
            obtain ⟨hres, hcap⟩ := hmatch
            rw [hr]
            refine ⟨hres, fun hre => ?_⟩
            have := hcap hre
            omega

theorem generateLyricsGo_spec (digest : JSString) :
    ∀ (models : List (Nat → AttemptOutcome)) (trace : List RetryRun),
      generateLyricsGo digest models trace =
        ((match models.find? lyricAccepted with
          | some m => enforcePromptLimit ((lyricAttemptText m).getD [])
          | none => enforcePromptLimit digest),
         trace ++ (models.take (models.findIdx lyricAccepted + 1)).map
           (fun m => callOpenRouterWithRetries m 1))
  | [], trace => by simp [generateLyricsGo]
  | m :: rest, trace => by
    cases hres : (callOpenRouterWithRetries m 1).result with
    | none =>
      have hacc : lyricAccepted m = false := by
        rw [lyricAccepted, lyricAttemptText, hres]
      simp [generateLyricsGo, hres, hacc, List.find?_cons, List.findIdx_cons,
        generateLyricsGo_spec digest rest (trace ++ [callOpenRouterWithRetries m 1]),
        List.take_succ_cons]
    | some res =>
      cases res with
      | error e =>
        have hacc : lyricAccepted m = false := by
          rw [lyricAccepted, lyricAttemptText, hres]
        simp [generateLyricsGo, hres, hacc, List.find?_cons, List.findIdx_cons,
          generateLyricsGo_spec digest rest (trace ++ [callOpenRouterWithRetries m 1]),
          List.take_succ_cons]
      | ok t =>
        have hacc : lyricAccepted m = (!t.isEmpty && hasWordChar t) := by
          rw [lyricAccepted, lyricAttemptText, hres]
        have htext : lyricAttemptText m = some t := by
          rw [lyricAttemptText, hres]
        by_cases hok : (!t.isEmpty && hasWordChar t) = true
        · simp [generateLyricsGo, hres, hacc, hok, htext, List.find?_cons,
            List.findIdx_cons, List.take_succ_cons]
        · simp [generateLyricsGo, hres, hacc, hok, List.find?_cons, List.findIdx_cons,
            generateLyricsGo_spec digest rest (trace ++ [callOpenRouterWithRetries m 1]),
            List.take_succ_cons]

/-- Claim C4, counterexample to the claim as stated.  In the lyric path a
retryable 503 failure on the first model consumes exactly one attempt with
no backoff sleep before the loop advances to the next model, because
generateLyricsWithOpenRouter invokes the retry helper with attempts set to
1; and a model answering non-empty text without any word character does not
stop the fallback: a second model is still attempted. -/
theorem generateLyrics_retry_counterexample :
    ((generateLyricsWithOpenRouter (jsStr "digest")
        [fun _ => AttemptOutcome.failure 503,
         fun _ => AttemptOutcome.success (jsStr "news lyrics")]).2.map
      (fun r => (r.used, r.delays))) = [(1, []), (1, [])] ∧
    (generateLyricsWithOpenRouter (jsStr "digest")
        [fun _ => AttemptOutcome.success (jsStr "!!!"),
         fun _ => AttemptOutcome.success (jsStr "ok")]).2.length = 2 ∧
    (generateLyricsWithOpenRouter (jsStr "digest")
        [fun _ => AttemptOutcome.success (jsStr "!!!"),
         fun _ => AttemptOutcome.success (jsStr "ok")]).1 = jsStr "ok" := by
  decide

/-- Claim C4 (amended): callOpenRouterWithRetries issues between 1 and
attempts-many attempts, sleeping 750 milliseconds and then doubling between
consecutive attempts, every attempt before the last fails retryably (5xx or
status 0), and the run ends either at the first success, at the first
non-retryable failure, or by exhausting the attempt budget on a retryable
failure; generateLyricsWithOpenRouter however invokes it with attempts set
to 1, so every model is attempted exactly once with no sleeps, any failure
advances to the next model, and the loop stops at the first model whose
text is non-empty and holds a word character, capping that text, with the
digest capped as fallback when every model is exhausted. -/
theorem generateLyrics_fallback_policy :
    (∀ (oracle : Nat → AttemptOutcome) (attempts : Nat), 1 ≤ attempts →
      ∃ n, 1 ≤ n ∧ n ≤ attempts ∧
        (callOpenRouterWithRetries oracle attempts).used = n ∧
        (callOpenRouterWithRetries oracle attempts).delays =
          (List.range (n - 1)).map (fun k => 750 * 2 ^ k) ∧
        (∀ k, k < n - 1 → isRetryableOutcome (oracle k) = true) ∧
        (match oracle (n - 1) with
         | AttemptOutcome.success t =>
           (callOpenRouterWithRetries oracle attempts).result = some (Except.ok t)
         | AttemptOutcome.failure st =>
           (callOpenRouterWithRetries oracle attempts).result = some (Except.error st) ∧
             (500 ≤ st ∨ st = 0 → n = attempts))) ∧
    (∀ (digest : JSString) (models : List (Nat → AttemptOutcome)),
      (generateLyricsWithOpenRouter digest models).1 =
        (match models.find? lyricAccepted with
         | some m => enforcePromptLimit ((lyricAttemptText m).getD [])
         | none => enforcePromptLimit digest) ∧
      (generateLyricsWithOpenRouter digest models).2 =
        (models.take (models.findIdx lyricAccepted + 1)).map
          (fun m => callOpenRouterWithRetries m 1)) ∧
    (∀ m : Nat → AttemptOutcome,
      (callOpenRouterWithRetries m 1).used = 1 ∧
      (callOpenRouterWithRetries m 1).delays = []) := by
  refine ⟨?_, ?_, ?_⟩
  · intro oracle attempts hatt
    obtain ⟨n, h1, h2, h3, h4, h5, h6⟩ :=
      retriesGo_spec oracle attempts attempts 0 750 hatt (by omega)
    refine ⟨n, h1, h2, h3, h4, fun k hk => by simpa using h5 k hk, ?_⟩
    have hidx : (0 : Nat) + (n - 1) = n - 1 := by omega
    rw [hidx] at h6
    cases ho : oracle (n - 1) with
    | success t =>
      rw [ho] at h6
      exact h6
    | failure st =>
      rw [ho] at h6
      exact ⟨h6.1, fun hre => by have := h6.2 hre; omega⟩
  · intro digest models
    have h := generateLyricsGo_spec digest models []
    rw [generateLyricsWithOpenRouter, h]
    exact ⟨rfl, by simp⟩
  · intro m
    cases ho : m 0 with
    | success t => simp [callOpenRouterWithRetries, retriesGo, ho]
    | failure st => simp [callOpenRouterWithRetries, retriesGo, ho]

/-- Claim C4, witness: the amended theorem applied at a concrete oracle that
always fails with 503 and attempts 3 yields the backoff delays 750 and then
1500. -/
theorem generateLyrics_fallback_policy_witness :
    (callOpenRouterWithRetries (fun _ => AttemptOutcome.failure 503) 3).delays =
      [750, 1500] := by
  obtain ⟨n, h1, h2, h3, h4, h5, h6⟩ :=
    generateLyrics_fallback_policy.1 (fun _ => AttemptOutcome.failure 503) 3 (by decide)
  have hn : n = 3 := h6.2 (by omega)
  rw [h4, hn]
  decide

/-! ## Claim C7: podcast plan validation -/

theorem bestMatchGo_spec (normKey : JSString → JSString) (key : JSString) :
    ∀ (stories : List Story) (best : Option Story) (s : ℚ),
      s ≤ (bestMatchGo normKey key stories (best, s)).2 ∧
      (∀ st ∈ stories,
        scoreSimilarity key (normKey st.headline) ≤ (bestMatchGo normKey key stories (best, s)).2) ∧
      (∀ st, (bestMatchGo normKey key stories (best, s)).1 = some st →
        (st ∈ stories ∧
          scoreSimilarity key (normKey st.headline) = (bestMatchGo normKey key stories (best, s)).2) ∨
        (best = some st ∧ (bestMatchGo normKey key stories (best, s)).2 = s))
  | [], best, s => by
    refine ⟨le_refl s, by simp [bestMatchGo], fun st h => Or.inr ⟨?_, by simp [bestMatchGo]⟩⟩
    simpa [bestMatchGo] using h
  | story :: rest, best, s => by
    simp only [bestMatchGo]
    by_cases hlt : s < scoreSimilarity key (normKey story.headline)
    · rw [if_pos hlt]
      obtain ⟨ih1, ih2, ih3⟩ :=
        bestMatchGo_spec normKey key rest (some story) (scoreSimilarity key (normKey story.headline))
      refine ⟨le_trans (le_of_lt hlt) ih1, ?_, ?_⟩
      · intro st hst
        rcases List.mem_cons.mp hst with rfl | hst
        · exact ih1
        · exact ih2 st hst
      · intro st hres
        rcases ih3 st hres with ⟨hmem, heq⟩ | ⟨hbest, heq⟩
        · exact Or.inl ⟨List.mem_cons_of_mem _ hmem, heq⟩
        · have hss : story = st := by injection hbest
          subst hss
          exact Or.inl ⟨List.mem_cons_self _ _, heq.symm⟩
    · rw [if_neg hlt]
      obtain ⟨ih1, ih2, ih3⟩ := bestMatchGo_spec normKey key rest best s
      refine ⟨ih1, ?_, ?_⟩
      · intro st hst
        rcases List.mem_cons.mp hst with rfl | hst
        · exact le_trans (not_lt.mp hlt) ih1
        · exact ih2 st hst
      · intro st hres
        rcases ih3 st hres with ⟨hmem, heq⟩ | hkeep
        · exact Or.inl ⟨List.mem_cons_of_mem _ hmem, heq⟩
        · exact Or.inr hkeep

theorem bestMatchGo_none (normKey : JSString → JSString) (key : JSString) :
    ∀ (stories : List Story) (best : Option Story) (s : ℚ),
      (bestMatchGo normKey key stories (best, s)).1 = none →
        best = none ∧ (bestMatchGo normKey key stories (best, s)).2 = s
  | [], best, s => by
    intro h
    exact ⟨by simpa [bestMatchGo] using h, by simp [bestMatchGo]⟩
  | story :: rest, best, s => by
    simp only [bestMatchGo]
    by_cases hlt : s < scoreSimilarity key (normKey story.headline)
    · rw [if_pos hlt]
      intro h
      have := (bestMatchGo_none normKey key rest (some story) _ h).1
      exact absurd this (by simp)
    · rw [if_neg hlt]
      intro h
      exact bestMatchGo_none normKey key rest best s h

theorem resolveSelection_eq (normKey : JSString → JSString) (stories : List Story)
    (sel : PlanSelection) :
    resolveSelection normKey stories sel =
      (if THRESHOLD ≤ (bestMatch normKey stories (normKey sel.headline)).2 then
        (bestMatch normKey stories (normKey sel.headline)).1.map
          (fun story => { sel with headline := story.headline })
      else none) := by
  simp only [resolveSelection]
  by_cases h : THRESHOLD ≤ (bestMatch normKey stories (normKey sel.headline)).2
  · rw [if_pos h, if_pos h]
    cases hb : (bestMatch normKey stories (normKey sel.headline)).1 <;> simp [hb]
  · rw [if_neg h, if_neg h]

/-- Claim C7: plan validation succeeds exactly when the trimmed overview is
non-empty and exactly 3 selections survive matching; at most 3 selections
survive; the best match of a key is a true maximum of the token-overlap
scores over the candidate stories, attained by the matched story; each
normalized selection is kept exactly when its best score reaches the 0.35
threshold, in which case its headline is replaced by the matched story
headline; and a best score at the threshold guarantees a matched story
exists. -/
theorem planValidate_fuzzy_matching (normKey : JSString → JSString) (stories : List Story)
    (parsed : ParsedPlan) :
    ((∃ plan, planValidate normKey stories parsed = Except.ok plan) ↔
      (optStrTrim parsed.overview_script ≠ [] ∧
       (filterSelections normKey stories
         (normalizeSelections (parsed.selections.getD []))).length = 3)) ∧
    (filterSelections normKey stories
      (normalizeSelections (parsed.selections.getD []))).length ≤ 3 ∧
    (∀ key,
      (∀ st ∈ stories,
        scoreSimilarity key (normKey st.headline) ≤ (bestMatch normKey stories key).2) ∧
      (∀ st, (bestMatch normKey stories key).1 = some st →
        st ∈ stories ∧
          scoreSimilarity key (normKey st.headline) = (bestMatch normKey stories key).2) ∧
      ((bestMatch normKey stories key).1 = none → (bestMatch normKey stories key).2 = 0)) ∧
    (∀ sel, resolveSelection normKey stories sel =
      (if THRESHOLD ≤ (bestMatch normKey stories (normKey sel.headline)).2 then
        (bestMatch normKey stories (normKey sel.headline)).1.map
          (fun story => { sel with headline := story.headline })
      else none)) ∧
    (∀ key, THRESHOLD ≤ (bestMatch normKey stories key).2 →
      (bestMatch normKey stories key).1.isSome = true) := by
  refine ⟨?_, ?_, ?_, ?_, ?_⟩
  · rw [planValidate]
    by_cases h : optStrTrim parsed.overview_script = [] ∨
        (filterSelections normKey stories
          (normalizeSelections (parsed.selections.getD []))).length ≠ 3
    · rw [if_pos h]
      constructor
      · rintro ⟨plan, hplan⟩
        exact Except.noConfusion hplan
      · rintro ⟨hA, hB⟩
        rcases h with h | h
        · exact absurd h hA
        · exact absurd hB h
    · rw [if_neg h]
      push_neg at h
      exact ⟨fun _ => ⟨h.1, h.2⟩, fun _ => ⟨_, rfl⟩⟩
  · rw [filterSelections]
    calc ((normalizeSelections (parsed.selections.getD [])).map
            (resolveSelection normKey stories)).reduceOption.length
        ≤ ((normalizeSelections (parsed.selections.getD [])).map
            (resolveSelection normKey stories)).length := List.reduceOption_length_le _
      _ = (normalizeSelections (parsed.selections.getD [])).length := List.length_map _ _
      _ ≤ 3 := by
          rw [normalizeSelections]
          exact List.length_take_le _ _
  · intro key
    obtain ⟨h1, h2, h3⟩ := bestMatchGo_spec normKey key stories none 0
    refine ⟨h2, ?_, ?_⟩
    · intro st hres
      rcases h3 st hres with ⟨hmem, heq⟩ | ⟨hbest, _⟩
      · exact ⟨hmem, heq⟩
      · exact Option.noConfusion hbest
    · intro hnone
      exact (bestMatchGo_none normKey key stories none 0 hnone).2
  · intro sel
    exact resolveSelection_eq normKey stories sel
  · intro key hth
    cases hb : (bestMatch normKey stories key).1 with
    | none =>
      have h0 := (bestMatchGo_none normKey key stories none 0 hb).2
      rw [bestMatch, h0] at hth
      exact absurd hth (by decide)
    | some st => simp

/-- Claim C7, witness: three selections echoing three distinct candidate
headlines validate into a full plan, by the theorem applied at a concrete
normalizer, story list and parsed reply. -/
theorem planValidate_fuzzy_matching_witness :
    ∃ plan,
      planValidate (fun s => s)
        [⟨jsStr "alpha news", [], []⟩, ⟨jsStr "beta story", [], []⟩,
         ⟨jsStr "gamma item", [], []⟩]
        ⟨some (jsStr "overview"),
         some [⟨some (jsStr "alpha news"), none, none, none⟩,
               ⟨some (jsStr "beta story"), none, none, none⟩,
               ⟨some (jsStr "gamma item"), none, none, none⟩]⟩ = Except.ok plan :=
  (planValidate_fuzzy_matching (fun s => s)
      [⟨jsStr "alpha news", [], []⟩, ⟨jsStr "beta story", [], []⟩,
       ⟨jsStr "gamma item", [], []⟩]
      ⟨some (jsStr "overview"),
       some [⟨some (jsStr "alpha news"), none, none, none⟩,
             ⟨some (jsStr "beta story"), none, none, none⟩,
             ⟨some (jsStr "gamma item"), none, none, none⟩]⟩).1.mpr
    ⟨by decide, by decide⟩
